import Mathlib

/-!
# Verification of the Sui wallet backend core

Shallow embedding of the account repository (database.py), the wallet
service (wallet_manager.py), the transaction service
(transaction_service.py) and the faucet rate limiter (app.py), together
with proofs of the spec claims about them.

Conventions of the embedding:
* SQLite rows become Lean structures; tables become lists of rows kept in
  insertion (rowid) order, so an unqualified SELECT ... LIMIT 1 returns
  the head of the list and ORDER BY created_at DESC is the reverse of the
  list (timestamps are taken strictly increasing in insertion order).
* Python floats for SUI amounts and for time.time() are modelled as
  rationals; machine time is passed explicitly as a parameter.
* External library calls (the pysui ledger client, hashlib.blake2b,
  cryptography Fernet, str.encode) are parameters of the embedded
  functions: an oracle value for each network call, and abstract
  functions with the library contract as an explicit hypothesis for the
  cryptographic primitives.
-/

namespace SuiWallet

/-- One row of the accounts table (database.py, _create_tables). -/
structure AccountRow where
  id : Nat
  nickname : String
  address : String
  private_key_encrypted : List Nat
  scheme : String
  created_at : Nat
  is_active : Bool
deriving DecidableEq, Repr

/-- One row of the transactions table (database.py, _create_tables). -/
structure TxRow where
  id : Nat
  digest : String
  from_address : String
  to_address : String
  amount : ℚ
  status : String
  timestamp : String
deriving DecidableEq, Repr

/-- The persistent state held by DatabaseManager: the two tables the
claims are about, plus the AUTOINCREMENT counters. -/
structure WalletDB where
  accounts : List AccountRow
  next_account_id : Nat
  transactions : List TxRow
  next_tx_id : Nat
deriving DecidableEq, Repr

/-- Projection returned by the account SELECTs that list the six public
columns: id, nickname, address, scheme, created_at, is_active
(database.py get_all_accounts / get_account_by_id / get_account_by_address).
The private_key_encrypted column is not part of this record. -/
structure AccountPublic where
  id : Nat
  nickname : String
  address : String
  scheme : String
  created_at : Nat
  is_active : Bool
deriving DecidableEq, Repr

/-- Projection of a stored row onto the six public columns. -/
def AccountRow.toPublic (a : AccountRow) : AccountPublic :=
  { id := a.id, nickname := a.nickname, address := a.address,
    scheme := a.scheme, created_at := a.created_at, is_active := a.is_active }

namespace DatabaseManager

/-- DatabaseManager.get_account_by_id: SELECT of the six public columns
WHERE id = ?, fetchone. -/
def get_account_by_id (db : WalletDB) (account_id : Nat) : Option AccountPublic :=
  (db.accounts.find? (fun a => a.id == account_id)).map AccountRow.toPublic

/-- DatabaseManager.get_account_by_address: SELECT of the six public
columns WHERE address = ?, fetchone. -/
def get_account_by_address (db : WalletDB) (address : String) : Option AccountPublic :=
  (db.accounts.find? (fun a => a.address == address)).map AccountRow.toPublic

/-- DatabaseManager.get_all_accounts: the six public columns of every
row, ORDER BY created_at DESC (newest first, i.e. reverse insertion
order). -/
def get_all_accounts (db : WalletDB) : List AccountPublic :=
  (db.accounts.reverse).map AccountRow.toPublic

/-- DatabaseManager.get_active_account: SELECT ... WHERE is_active = 1,
fetchone (the first such row). -/
def get_active_account (db : WalletDB) : Option AccountPublic :=
  (db.accounts.find? (fun a => a.is_active)).map AccountRow.toPublic

/-- DatabaseManager.set_active_account: UPDATE accounts SET is_active = 0
(all rows), then UPDATE accounts SET is_active = 1 WHERE id = ?; returns
cursor.rowcount > 0, the row count of the second UPDATE. -/
def set_active_account (db : WalletDB) (account_id : Nat) : Bool × WalletDB :=
  let cleared := db.accounts.map (fun a => { a with is_active := false })
  let updated := cleared.map (fun a => if a.id == account_id then { a with is_active := true } else a)
  let rowcount := (cleared.filter (fun a => a.id == account_id)).length
  (rowcount > 0, { db with accounts := updated })

/-- DatabaseManager.delete_account: look up is_active of the target row;
if absent return False; otherwise DELETE the row, and if it was active,
SELECT id FROM accounts LIMIT 1 and set_active_account on that id. -/
def delete_account (db : WalletDB) (account_id : Nat) : Bool × WalletDB :=
  match db.accounts.find? (fun a => a.id == account_id) with
  | none => (false, db)
  | some row =>
    let remaining := db.accounts.filter (fun a => a.id != account_id)
    let db1 : WalletDB := { db with accounts := remaining }
    if row.is_active then
      match remaining.head? with
      | some nxt => (true, (set_active_account db1 nxt.id).2)
      | none => (true, db1)
    else
      (true, db1)

/-- DatabaseManager.save_transaction: INSERT of
(digest, from_address, to_address, amount, status, timestamp); a
duplicate digest raises sqlite3.IntegrityError, caught and mapped to
None; otherwise the new rowid is returned.  A timestamp of None defaults
to the current time, which is passed in explicitly. -/
def save_transaction (db : WalletDB) (digest from_address to_address : String)
    (amount : ℚ) (status : String) (timestamp : Option String) (now : String) :
    Option Nat × WalletDB :=
  let ts := timestamp.getD now
  if db.transactions.any (fun t => t.digest == digest) then
    (none, db)
  else
    let row : TxRow :=
      { id := db.next_tx_id, digest := digest, from_address := from_address,
        to_address := to_address, amount := amount, status := status, timestamp := ts }
    (some db.next_tx_id,
     { db with transactions := db.transactions ++ [row], next_tx_id := db.next_tx_id + 1 })

end DatabaseManager

/-- Number of rows of the accounts table with is_active = 1. -/
def countActive (db : WalletDB) : Nat :=
  (db.accounts.filter (fun a => a.is_active)).length

/-- The accounts table satisfies the spec invariant when exactly one row
is active. -/
def exactlyOneActive (db : WalletDB) : Prop :=
  countActive db = 1

instance (db : WalletDB) : Decidable (exactlyOneActive db) := by
  unfold exactlyOneActive; infer_instance

/-- List of ids of the accounts table, in rowid order. -/
def accountIds (db : WalletDB) : List Nat :=
  db.accounts.map (fun a => a.id)

/-! ## Key derivation (wallet_manager.py, _generate_ed25519_keypair) -/

/-- Lowercase hex digit used by Python bytes.hex(): digits 0-9 then the
letters a-f. -/
def hexDigit (n : Nat) : Char :=
  if n < 10 then Char.ofNat (48 + n) else Char.ofNat (87 + n)

/-- Two lowercase hex digits of one byte, high nibble first. -/
def byteToHex (b : Nat) : List Char :=
  [hexDigit (b / 16), hexDigit (b % 16)]

/-- Python bytes.hex(): the lowercase hex string of a byte string. -/
def bytesHex (bs : List Nat) : String :=
  String.mk (bs.flatMap byteToHex)

/-- Address derivation of _generate_ed25519_keypair, after the public key
bytes are in hand: data_to_hash = flag byte 0x00 prepended to the public
key, hash_result = blake2b(data_to_hash, digest_size=32), address =
"0x" plus hash_result[:32].hex().  The blake2b function of hashlib is a
parameter of the embedding. -/
def deriveAddress (blake2b256 : List Nat → List Nat) (public_key_bytes : List Nat) : String :=
  let data_to_hash := 0 :: public_key_bytes
  let hash_result := blake2b256 data_to_hash
  "0x" ++ bytesHex (hash_result.take 32)

/-! ## Encrypted key store (database.py, _encrypt_private_key and
_decrypt_private_key)

The Fernet cipher of the cryptography library and the str.encode /
bytes.decode pair of the Python runtime are abstract functions; their
documented contracts (authenticated decryption inverts encryption, and
decoding inverts encoding) enter the theorems as hypotheses. -/

/-- The pair of byte-level functions supplied by cryptography.fernet.Fernet. -/
structure FernetCipher where
  encrypt : List Nat → List Nat
  decrypt : List Nat → List Nat

/-- DatabaseManager._encrypt_private_key: cipher.encrypt(private_key.encode()). -/
def encrypt_private_key (cipher : FernetCipher) (encode : String → List Nat)
    (private_key : String) : List Nat :=
  cipher.encrypt (encode private_key)

/-- DatabaseManager._decrypt_private_key: cipher.decrypt(encrypted_key).decode(). -/
def decrypt_private_key (cipher : FernetCipher) (decode : List Nat → String)
    (encrypted_key : List Nat) : String :=
  decode (cipher.decrypt encrypted_key)

/-! ## Wallet service (wallet_manager.py) -/

/-- Result of a pysui client call returning a balance: is_ok with an
integer total_balance in MIST, a non-ok result, or a raised exception. -/
inductive BalanceResult where
  | ok (total_balance : Int)
  | errRes
  | exn
deriving DecidableEq, Repr

namespace WalletManager

/-- WalletManager.get_balance: 0.0 when offline (client is None);
otherwise total_balance / 1_000_000_000 when the query is ok, and 0.0 on
a non-ok result or on any exception. -/
def get_balance (connected : Bool) (res : BalanceResult) : ℚ :=
  if ¬ connected then 0
  else
    match res with
    | BalanceResult.ok total_balance => (total_balance : ℚ) / 1000000000
    | BalanceResult.errRes => 0
    | BalanceResult.exn => 0

/-- WalletManager.switch_account: db.set_active_account, then on success
the public row of the account (its live balance attached by the caller
is not part of the stored state). -/
def switch_account (db : WalletDB) (account_id : Nat) : Option AccountPublic × WalletDB :=
  let (success, db1) := DatabaseManager.set_active_account db account_id
  if success then (DatabaseManager.get_account_by_id db1 account_id, db1)
  else (none, db1)

end WalletManager

/-- Result of txn.execute on the ledger: is_ok with a digest, a non-ok
result with a message, or a raised exception with a message. -/
inductive ExecResult where
  | ok (digest : String)
  | err (msg : String)
  | exn (msg : String)
deriving DecidableEq, Repr

/-- Environment of one send_tokens call: the connectivity state, the
outcome of keypair resolution (database read plus external keystring
parsing), the fresh balance query, and the ledger submission outcome. -/
structure SendEnv where
  connected : Bool
  keypair_ok : Bool
  fresh_balance : ℚ
  exec : ExecResult
deriving Repr

/-- Discriminated result of send_tokens, mirroring the returned dict. -/
structure SendResult where
  success : Bool
  error : Option String
  digest : Option String
deriving DecidableEq, Repr

namespace WalletManager

/-- WalletManager.send_tokens: refuse when offline; resolve the sender
keypair; look the sender account up; compare the requested amount with a
fresh balance; submit; on an ok submission save a success TransactionRecord
under the ledger digest, otherwise return a failure and touch nothing. -/
def send_tokens (db : WalletDB) (env : SendEnv) (from_account_id : Nat)
    (to_address : String) (amount : ℚ) (now : String) : SendResult × WalletDB :=
  if ¬ env.connected then
    ({ success := false,
       error := some "Not connected to Sui network. Cannot send transactions in offline mode.",
       digest := none }, db)
  else if ¬ env.keypair_ok then
    ({ success := false, error := some "Could not retrieve sender keypair", digest := none }, db)
  else
    match DatabaseManager.get_account_by_id db from_account_id with
    | none =>
      ({ success := false, error := some "Sender account not found", digest := none }, db)
    | some sender_account =>
      if env.fresh_balance < amount then
        ({ success := false, error := some "Insufficient balance", digest := none }, db)
      else
        match env.exec with
        | ExecResult.ok tx_digest =>
          let (_, db1) := DatabaseManager.save_transaction db tx_digest
            sender_account.address to_address amount "success" none now
          ({ success := true, error := none, digest := some tx_digest }, db1)
        | ExecResult.err msg =>
          ({ success := false, error := some ("Transaction failed: " ++ msg), digest := none }, db)
        | ExecResult.exn msg =>
          ({ success := false, error := some ("Error: " ++ msg), digest := none }, db)

end WalletManager

/-! ## HTTP route for account deletion (app.py, delete_account) -/

namespace App

/-- The delete_account route of app.py: 404 when the id is unknown,
refusal when only one account exists, otherwise db.delete_account, and
when the deleted account was the active one, switch_account onto the
first entry of the refreshed account list. -/
def delete_account (db : WalletDB) (account_id : Nat) : Bool × WalletDB :=
  match DatabaseManager.get_account_by_id db account_id with
  | none => (false, db)
  | some _ =>
    if (DatabaseManager.get_all_accounts db).length == 1 then
      (false, db)
    else
      let active := DatabaseManager.get_active_account db
      let was_active := match active with
        | some acc => acc.id == account_id
        | none => false
      let (success, db1) := DatabaseManager.delete_account db account_id
      if success then
        if was_active then
          match (DatabaseManager.get_all_accounts db1).head? with
          | some first => (true, (WalletManager.switch_account db1 first.id).2)
          | none => (true, db1)
        else
          (true, db1)
      else
        (false, db1)

end App

/-! ## Faucet rate limiter (app.py) -/

/-- One value of the faucet_requests dict, keyed by address. -/
structure RateEntry where
  last_request : ℚ
  last_success : ℚ
  consecutive_failures : Nat
  total_requests : Nat
  last_faucet_limit : ℚ
deriving DecidableEq, Repr

/-- The faucet_requests map: entries per address, absent when the address
was never recorded. -/
def RateMap : Type := String → Option RateEntry

/-- Tiered cooldown of is_rate_limited and get_remaining_time: 120 s
after no failures, 300 s after one failure, 600 s otherwise. -/
def tierCooldown (consecutive_failures : Nat) : ℚ :=
  if consecutive_failures == 0 then 120
  else if consecutive_failures == 1 then 300
  else 600

namespace App

/-- is_rate_limited of app.py: False for an unknown address; otherwise
the elapsed time since last_request is compared with the tiered
cooldown.  The current time is passed explicitly. -/
def is_rate_limited (m : RateMap) (address : String) (now : ℚ) : Bool :=
  match m address with
  | none => false
  | some entry => (now - entry.last_request) < tierCooldown entry.consecutive_failures

/-- update_rate_limit of app.py: create a fresh entry when the address is
unknown, stamp last_request and bump total_requests, then on success
reset the failure state and on failure bump consecutive_failures and,
when a truthy faucet_retry_after was supplied, set last_faucet_limit to
now + faucet_retry_after. -/
def update_rate_limit (m : RateMap) (address : String) (success : Bool)
    (faucet_retry_after : Option ℚ) (now : ℚ) : RateMap :=
  let base := match m address with
    | some entry => entry
    | none =>
      { last_request := now, last_success := 0, consecutive_failures := 0,
        total_requests := 0, last_faucet_limit := 0 }
  let stamped := { base with last_request := now, total_requests := base.total_requests + 1 }
  let final :=
    if success then
      { stamped with last_success := now, consecutive_failures := 0, last_faucet_limit := 0 }
    else
      let failed := { stamped with consecutive_failures := stamped.consecutive_failures + 1 }
      match faucet_retry_after with
      | some retry => if retry ≠ 0 then { failed with last_faucet_limit := now + retry } else failed
      | none => failed
  fun a => if a == address then some final else m a

/-- get_remaining_time of app.py: 0 for an unknown address; the seconds
left until last_faucet_limit when that deadline lies in the future;
otherwise the unexpired part of the tiered cooldown.  Python truncates
with int(), which on these non-negative values is the floor. -/
def get_remaining_time (m : RateMap) (address : String) (now : ℚ) : ℤ :=
  match m address with
  | none => 0
  | some entry =>
    if entry.last_faucet_limit > now then
      ⌊entry.last_faucet_limit - now⌋
    else
      let time_passed := now - entry.last_request
      ⌊max 0 (tierCooldown entry.consecutive_failures - time_passed)⌋

end App

/-! ## Helper lemmas on the account table -/

/-- The row transformation performed by the two UPDATEs of
set_active_account, seen as one function per row. -/
def activateOnly (i : Nat) (a : AccountRow) : AccountRow :=
  if a.id == i then { a with is_active := true } else { a with is_active := false }

/-- The accounts table after set_active_account is the pointwise image of
activateOnly. -/
theorem set_active_account_accounts (db : WalletDB) (i : Nat) :
    (DatabaseManager.set_active_account db i).2.accounts = db.accounts.map (activateOnly i) := by
  unfold DatabaseManager.set_active_account
  simp only [List.map_map]
  apply List.map_congr_left
  intro a _
  by_cases h : a.id = i <;> simp [activateOnly, h]

/-- activateOnly keeps the id column of a row. -/
theorem activateOnly_id (i : Nat) (a : AccountRow) : (activateOnly i a).id = a.id := by
  by_cases h : a.id = i <;> simp [activateOnly, h]

/-- set_active_account does not change the id column. -/
theorem set_active_account_ids (db : WalletDB) (i : Nat) :
    accountIds (DatabaseManager.set_active_account db i).2 = accountIds db := by
  unfold accountIds
  rw [set_active_account_accounts, List.map_map]
  apply List.map_congr_left
  intro a _
  exact activateOnly_id i a

/-- After set_active_account the active rows are exactly the rows whose
id column equals the requested id. -/
theorem countActive_set_active_account (db : WalletDB) (i : Nat) :
    countActive (DatabaseManager.set_active_account db i).2 = (accountIds db).count i := by
  unfold countActive accountIds
  rw [set_active_account_accounts]
  induction db.accounts with
  | nil => rfl
  | cons b t ih =>
    by_cases h : b.id = i
    · simp [activateOnly, h, ih, List.filter_cons, List.count_cons]
    · simp [activateOnly, h, ih, List.filter_cons, List.count_cons]

/-- The return value of set_active_account is the row count of the
second UPDATE: true exactly when some row has the requested id. -/
theorem set_active_account_fst (db : WalletDB) (i : Nat) :
    (DatabaseManager.set_active_account db i).1 = true ↔ i ∈ accountIds db := by
  unfold DatabaseManager.set_active_account accountIds
  simp only [decide_eq_true_eq, ← List.countP_eq_length_filter, List.countP_map]
  rw [gt_iff_lt, List.countP_pos_iff]
  constructor
  · rintro ⟨a, ha, hai⟩
    exact List.mem_map.mpr ⟨a, ha, by simpa using hai⟩
  · intro h
    obtain ⟨a, ha, hai⟩ := List.mem_map.mp h
    exact ⟨a, ha, by simpa using hai⟩

/-- A sequence of switchAccount / setActiveAccount calls, applied to the
stored state in order. -/
def applySwitches (db : WalletDB) (calls : List Nat) : WalletDB :=
  calls.foldl (fun d i => (DatabaseManager.set_active_account d i).2) db

theorem applySwitches_cons (db : WalletDB) (c : Nat) (calls : List Nat) :
    applySwitches db (c :: calls) =
      applySwitches (DatabaseManager.set_active_account db c).2 calls := rfl

theorem countActive_applySwitches_existing :
    ∀ (calls : List Nat) (db : WalletDB) (c : Nat), (accountIds db).Nodup →
      c ∈ accountIds db → (∀ i ∈ calls, i ∈ accountIds db) →
      countActive (applySwitches db (c :: calls)) = 1 := by
  intro calls
  induction calls with
  | nil =>
    intro db c hnd hc _
    rw [applySwitches_cons]
    show countActive (DatabaseManager.set_active_account db c).2 = 1
    rw [countActive_set_active_account]
    exact List.count_eq_one_of_mem hnd hc
  | cons d t ih =>
    intro db c hnd hc hmem
    rw [applySwitches_cons]
    have hids := set_active_account_ids db c
    exact ih (DatabaseManager.set_active_account db c).2 d (hids ▸ hnd)
      (hids ▸ hmem d (List.mem_cons_self d t))
      (fun i hi => hids ▸ hmem i (List.mem_cons_of_mem d hi))

/-- Claim C1 (amended): on an account table with pairwise distinct ids,
every nonempty sequence of switchAccount / setActiveAccount calls whose
ids all exist leaves exactly one account with is_active = true; a
setActiveAccount call whose id does not exist returns false, but it
first clears every active flag, so it leaves zero active accounts rather
than preserving the invariant. -/
theorem claim1_switch_invariant (db : WalletDB) (hnodup : (accountIds db).Nodup) :
    (∀ calls : List Nat, calls ≠ [] → (∀ i ∈ calls, i ∈ accountIds db) →
      countActive (applySwitches db calls) = 1) ∧
    (∀ i, i ∉ accountIds db →
      (DatabaseManager.set_active_account db i).1 = false ∧
      countActive (DatabaseManager.set_active_account db i).2 = 0) := by
  constructor
  · intro calls hne hmem
    match calls with
    | [] => exact absurd rfl hne
    | c :: rest =>
      exact countActive_applySwitches_existing rest db c hnodup
        (hmem c (List.mem_cons_self c rest)) (fun i hi => hmem i (List.mem_cons_of_mem c hi))
  · intro i hi
    constructor
    · rcases Bool.eq_false_or_eq_true (DatabaseManager.set_active_account db i).1 with h | h
      · exact absurd ((set_active_account_fst db i).mp h) hi
      · exact h
    · rw [countActive_set_active_account]
      exact List.count_eq_zero.mpr (fun h => hi h)

/-- A repository with a single account, which is active. -/
def cdbA : WalletDB :=
  { accounts := [{ id := 1, nickname := "A", address := "0xa", private_key_encrypted := [0],
                   scheme := "ed25519", created_at := 1, is_active := true }],
    next_account_id := 2, transactions := [], next_tx_id := 1 }

/-- Claim C1 counterexample: on a repository holding one active account,
setActiveAccount(2) with a nonexistent id returns false, and afterwards
it is not the case that exactly one account is active: the active flag
of the sole account has been cleared. -/
theorem claim1_counterexample :
    cdbA.accounts ≠ [] ∧
    (DatabaseManager.set_active_account cdbA 2).1 = false ∧
    ¬ exactlyOneActive (DatabaseManager.set_active_account cdbA 2).2 := by
  decide

/-- A repository with two accounts with distinct ids 1 and 2. -/
def cdbB : WalletDB :=
  { accounts := [{ id := 1, nickname := "A", address := "0xa", private_key_encrypted := [0],
                   scheme := "ed25519", created_at := 1, is_active := true },
                 { id := 2, nickname := "B", address := "0xb", private_key_encrypted := [1],
                   scheme := "ed25519", created_at := 2, is_active := false }],
    next_account_id := 3, transactions := [], next_tx_id := 1 }

/-- Witness for claim1_switch_invariant on a concrete two-account
repository and the concrete call sequence 2, 1, 2. -/
theorem claim1_witness :
    countActive (applySwitches cdbB [2, 1, 2]) = 1 ∧
    (DatabaseManager.set_active_account cdbB 7).1 = false ∧
    countActive (DatabaseManager.set_active_account cdbB 7).2 = 0 :=
  ⟨(claim1_switch_invariant cdbB (by decide)).1 [2, 1, 2] (by decide) (by decide),
   ((claim1_switch_invariant cdbB (by decide)).2 7 (by decide)).1,
   ((claim1_switch_invariant cdbB (by decide)).2 7 (by decide)).2⟩

/-! ## Claim C5: duplicate digests in the transaction cache -/

/-- Claim C5: whenever the transactions table already holds a row with
the digest being saved, save_transaction returns the duplicate indicator
None without raising, and the stored transaction rows are unchanged. -/
theorem claim5_duplicate_digest (db : WalletDB) (digest fa ta : String) (amount : ℚ)
    (status : String) (timestamp : Option String) (now : String)
    (hdup : ∃ t ∈ db.transactions, t.digest = digest) :
    DatabaseManager.save_transaction db digest fa ta amount status timestamp now = (none, db) := by
  obtain ⟨t, ht, hd⟩ := hdup
  have hcond : db.transactions.any (fun t => t.digest == digest) = true :=
    List.any_eq_true.mpr ⟨t, ht, by simpa using hd⟩
  simp only [DatabaseManager.save_transaction]
  rw [if_pos hcond]

/-- A transaction cache already holding a row with digest d1. -/
def cdbT : WalletDB :=
  { accounts := [], next_account_id := 1,
    transactions := [{ id := 1, digest := "d1", from_address := "0xa", to_address := "0xb",
                       amount := 0, status := "success", timestamp := "t0" }],
    next_tx_id := 2 }

/-- Witness for claim5_duplicate_digest: re-saving digest d1 into cdbT
returns None and leaves the cache unchanged. -/
theorem claim5_witness :
    DatabaseManager.save_transaction cdbT "d1" "0xa" "0xb" 0 "pending" none "t1" = (none, cdbT) :=
  claim5_duplicate_digest cdbT "d1" "0xa" "0xb" 0 "pending" none "t1"
    ⟨{ id := 1, digest := "d1", from_address := "0xa", to_address := "0xb",
       amount := 0, status := "success", timestamp := "t0" }, by simp [cdbT], rfl⟩

/-! ## Claim C8: balance queries degrade to zero -/

/-- Claim C8: get_balance returns the ledger total divided by 10^9 when
connected and the query is ok, and 0.0 when the service is offline, when
the query returns a non-ok result, and when the query raises. -/
theorem claim8_get_balance (res : BalanceResult) (n : Int) :
    WalletManager.get_balance true (BalanceResult.ok n) = (n : ℚ) / 10 ^ 9 ∧
    WalletManager.get_balance false res = 0 ∧
    WalletManager.get_balance true BalanceResult.errRes = 0 ∧
    WalletManager.get_balance true BalanceResult.exn = 0 := by
  refine ⟨?_, by cases res <;> rfl, rfl, rfl⟩
  show ((n : ℚ) / 1000000000) = (n : ℚ) / 10 ^ 9
  norm_num

/-! ## Claim C10: account getters expose no key material -/

/-- Replacement of the private_key_encrypted column of every row by an
arbitrary function of the row; everything else is unchanged. -/
def rekeyAccounts (db : WalletDB) (f : AccountRow → List Nat) : WalletDB :=
  { db with accounts := db.accounts.map (fun a => { a with private_key_encrypted := f a }) }

/-- Claim C10: get_account_by_id and get_account_by_address return the
projection onto the six public columns only, so their results are
unchanged under any replacement of the stored encrypted key material:
no private key, encrypted or plaintext, reaches the result. -/
theorem claim10_getters_no_key_material (db : WalletDB) (f : AccountRow → List Nat)
    (account_id : Nat) (address : String) :
    DatabaseManager.get_account_by_id (rekeyAccounts db f) account_id =
      DatabaseManager.get_account_by_id db account_id ∧
    DatabaseManager.get_account_by_address (rekeyAccounts db f) address =
      DatabaseManager.get_account_by_address db address := by
  constructor
  · unfold DatabaseManager.get_account_by_id rekeyAccounts
    simp only
    induction db.accounts with
    | nil => rfl
    | cons b t ih =>
      by_cases h : b.id = account_id
      · simp [List.find?_cons, h, AccountRow.toPublic]
      · simpa [List.find?_cons, h] using ih
  · unfold DatabaseManager.get_account_by_address rekeyAccounts
    simp only
    induction db.accounts with
    | nil => rfl
    | cons b t ih =>
      by_cases h : b.address = address
      · simp [List.find?_cons, h, AccountRow.toPublic]
      · simpa [List.find?_cons, h] using ih

/-! ## Claim C9: encrypted key store roundtrip -/

/-- Claim C9: for any Fernet cipher whose decryption inverts its
encryption and any encode/decode pair where decoding inverts encoding
(the documented contracts of the cryptography library and of the Python
string codec), decrypting the encryption of a private key string returns
the original string, and encryptions of two different private key
strings are never equal. -/
theorem claim9_encrypt_roundtrip (cipher : FernetCipher) (encode : String → List Nat)
    (decode : List Nat → String)
    (hcipher : ∀ b, cipher.decrypt (cipher.encrypt b) = b)
    (hencode : ∀ s, decode (encode s) = s) :
    (∀ pk, decrypt_private_key cipher decode (encrypt_private_key cipher encode pk) = pk) ∧
    (∀ pk1 pk2, pk1 ≠ pk2 →
      encrypt_private_key cipher encode pk1 ≠ encrypt_private_key cipher encode pk2) := by
  constructor
  · intro pk
    unfold decrypt_private_key encrypt_private_key
    rw [hcipher, hencode]
  · intro pk1 pk2 hne heq
    apply hne
    have h1 := congrArg cipher.decrypt heq
    unfold encrypt_private_key at h1
    rw [hcipher, hcipher] at h1
    have h2 := congrArg decode h1
    rwa [hencode, hencode] at h2

/-- The identity cipher, a concrete instance of the Fernet contract. -/
def idCipher : FernetCipher := ⟨fun b => b, fun b => b⟩

/-- Concrete byte encoding of a string by character codes. -/
def encodeChars (s : String) : List Nat := s.data.map Char.toNat

/-- Concrete decoding matching encodeChars. -/
def decodeChars (l : List Nat) : String := String.mk (l.map Char.ofNat)

theorem decodeChars_encodeChars (s : String) : decodeChars (encodeChars s) = s := by
  unfold decodeChars encodeChars
  rw [List.map_map]
  have : (Char.ofNat ∘ Char.toNat) = id := by
    funext c
    exact Char.ofNat_toNat c
  rw [this, List.map_id]

/-- Witness for claim9_encrypt_roundtrip on concrete cipher, codec and
key strings. -/
theorem claim9_witness :
    decrypt_private_key idCipher decodeChars
      (encrypt_private_key idCipher encodeChars "AHtRFD4=") = "AHtRFD4=" ∧
    encrypt_private_key idCipher encodeChars "k1" ≠
      encrypt_private_key idCipher encodeChars "k2" :=
  ⟨(claim9_encrypt_roundtrip idCipher encodeChars decodeChars (fun _ => rfl)
      decodeChars_encodeChars).1 "AHtRFD4=",
   (claim9_encrypt_roundtrip idCipher encodeChars decodeChars (fun _ => rfl)
      decodeChars_encodeChars).2 "k1" "k2" (by decide)⟩

/-! ## Claim C3: address derivation -/

/-- The sixteen lowercase hex characters. -/
def hexChars : List Char := "0123456789abcdef".data

theorem hexDigit_mem : ∀ n, n < 16 → hexDigit n ∈ hexChars := by decide

theorem byteToHex_mem (b : Nat) (hb : b < 256) : ∀ c ∈ byteToHex b, c ∈ hexChars := by
  intro c hc
  unfold byteToHex at hc
  simp only [List.mem_cons, List.not_mem_nil, or_false] at hc
  rcases hc with h | h <;> subst h
  · exact hexDigit_mem _ ((Nat.div_lt_iff_lt_mul (by norm_num)).mpr (by omega))
  · exact hexDigit_mem _ (Nat.mod_lt b (by norm_num))

theorem bytesHex_mem (bs : List Nat) (hb : ∀ b ∈ bs, b < 256) :
    ∀ c ∈ (bytesHex bs).data, c ∈ hexChars := by
  intro c hc
  unfold bytesHex at hc
  obtain ⟨b, hbmem, hcb⟩ := List.mem_flatMap.mp hc
  exact byteToHex_mem b (hb b hbmem) c hcb

theorem bytesHex_length (bs : List Nat) : (bytesHex bs).length = 2 * bs.length := by
  unfold bytesHex
  show (bs.flatMap byteToHex).length = 2 * bs.length
  induction bs with
  | nil => rfl
  | cons b t ih =>
    rw [List.flatMap_cons, List.length_append, ih]
    simp [byteToHex]
    omega

/-- Claim C3: address derivation is the pure function computing the
string "0x" followed by the lowercase hex rendering of the 32-byte
digest of the flag byte 0x00 prepended to the public key bytes; for any
digest function producing 32 bytes, the address has the "0x" prefix,
length 66, only lowercase hex characters after the prefix, and identical
public key inputs yield an identical address string. -/
theorem claim3_derive_address (blake2b256 : List Nat → List Nat) (public_key_bytes : List Nat)
    (hlen : (blake2b256 (0 :: public_key_bytes)).length = 32)
    (hbytes : ∀ b ∈ blake2b256 (0 :: public_key_bytes), b < 256) :
    deriveAddress blake2b256 public_key_bytes =
      "0x" ++ bytesHex (blake2b256 (0 :: public_key_bytes)) ∧
    (deriveAddress blake2b256 public_key_bytes).length = 66 ∧
    (∀ c ∈ (bytesHex (blake2b256 (0 :: public_key_bytes))).data, c ∈ hexChars) ∧
    (∀ pk2, pk2 = public_key_bytes →
      deriveAddress blake2b256 pk2 = deriveAddress blake2b256 public_key_bytes) := by
  have htake : (blake2b256 (0 :: public_key_bytes)).take 32 = blake2b256 (0 :: public_key_bytes) := by
    conv_lhs => rw [← hlen]
    exact List.take_length _
  refine ⟨?_, ?_, bytesHex_mem _ hbytes, fun pk2 h => by rw [h]⟩
  · show "0x" ++ bytesHex ((blake2b256 (0 :: public_key_bytes)).take 32) =
      "0x" ++ bytesHex (blake2b256 (0 :: public_key_bytes))
    rw [htake]
  · show ("0x" ++ bytesHex ((blake2b256 (0 :: public_key_bytes)).take 32)).length = 66
    rw [htake, String.length_append, bytesHex_length, hlen]
    rfl

/-- A constant 32-byte digest function used to instantiate claim3. -/
def constHash : List Nat → List Nat := fun _ => List.replicate 32 0

/-- Witness for claim3_derive_address at a concrete digest function and
the empty public key. -/
theorem claim3_witness :
    deriveAddress constHash [] = "0x" ++ bytesHex (constHash [0]) ∧
    (deriveAddress constHash []).length = 66 :=
  ⟨(claim3_derive_address constHash [] (by decide) (by decide)).1,
   (claim3_derive_address constHash [] (by decide) (by decide)).2.1⟩

/-! ## Claim C2: failed sends persist nothing -/

/-- Claim C2: whenever send_tokens returns a failure result — offline,
unresolvable sender keypair, sender account not found, fresh balance
below the requested amount, or ledger rejection — the stored state, and
with it the local transaction cache, is unchanged: no TransactionRecord
is persisted. -/
theorem claim2_send_failure_no_record (db : WalletDB) (env : SendEnv) (from_account_id : Nat)
    (to_address : String) (amount : ℚ) (now : String)
    (hfail : (WalletManager.send_tokens db env from_account_id to_address amount now).1.success = false) :
    (WalletManager.send_tokens db env from_account_id to_address amount now).2 = db := by
  by_cases h1 : env.connected
  · by_cases h2 : env.keypair_ok
    · cases hacc : DatabaseManager.get_account_by_id db from_account_id with
      | none => simp [WalletManager.send_tokens, h1, h2, hacc]
      | some acc =>
        by_cases h3 : env.fresh_balance < amount
        · simp [WalletManager.send_tokens, h1, h2, hacc, h3]
        · cases hexec : env.exec with
          | ok d =>
            rw [WalletManager.send_tokens] at hfail
            simp [h1, h2, hacc, h3, hexec] at hfail
          | err m => simp [WalletManager.send_tokens, h1, h2, hacc, h3, hexec]
          | exn m => simp [WalletManager.send_tokens, h1, h2, hacc, h3, hexec]
    · simp [WalletManager.send_tokens, h1, h2]
  · simp [WalletManager.send_tokens, h1]

/-- The environment of a send attempted while the service is offline. -/
def envOffline : SendEnv :=
  { connected := false, keypair_ok := true, fresh_balance := 0, exec := ExecResult.err "offline" }

/-- Witness for claim2_send_failure_no_record: sending while offline
fails and leaves the stored transaction cache unchanged. -/
theorem claim2_witness :
    (WalletManager.send_tokens cdbT envOffline 1 "0xb" 10 "t").1.success = false ∧
    (WalletManager.send_tokens cdbT envOffline 1 "0xb" 10 "t").2 = cdbT :=
  ⟨rfl, claim2_send_failure_no_record cdbT envOffline 1 "0xb" 10 "t" rfl⟩

/-! ## Claim C4: external retry-after handling in the rate limiter -/

/-- The rate map before any request. -/
def emptyRateMap : RateMap := fun _ => none

/-- The rate map after one failure at time 0 carrying an external
retry-after of 900 seconds. -/
def rateM1 : RateMap := App.update_rate_limit emptyRateMap "addr" false (some 900) 0

/-- The entry rateM1 stores for the address. -/
def rateEntry1 : RateEntry :=
  { last_request := 0, last_success := 0, consecutive_failures := 1,
    total_requests := 1, last_faucet_limit := 900 }

/-- Claim C4 counterexample: after a failure recorded at time 0 with an
external retry-after of 900 s, at time 400 the externally imposed
deadline (time 900) has not elapsed and get_remaining_time still
reports the 500 s left until it, yet is_rate_limited already reports
False: it consults only the tiered cooldown (300 s after one failure),
never the stored deadline, so the address is not reported rate-limited
while the external deadline is pending. -/
theorem claim4_counterexample :
    rateM1 "addr" = some rateEntry1 ∧
    (400 : ℚ) < rateEntry1.last_faucet_limit ∧
    App.get_remaining_time rateM1 "addr" 400 = 500 ∧
    App.is_rate_limited rateM1 "addr" 400 = false := by
  refine ⟨?_, by norm_num [rateEntry1], ?_, ?_⟩
  · simp [rateM1, emptyRateMap, App.update_rate_limit, rateEntry1]
  · simp [rateM1, emptyRateMap, App.update_rate_limit, App.get_remaining_time, tierCooldown]
    norm_num
  · simp [rateM1, emptyRateMap, App.update_rate_limit, App.is_rate_limited, tierCooldown]
    norm_num

/-- Replacement of the stored externally imposed deadline of one address
by an arbitrary value, all other state unchanged. -/
def setFaucetLimit (m : RateMap) (address : String) (q : ℚ) : RateMap :=
  fun a =>
    if a == address then (m a).map (fun e => { e with last_faucet_limit := q }) else m a

/-- Claim C4 (amended): an explicit external retry-after duration sets a
per-address deadline that only get_remaining_time honours: while the
deadline has not passed, get_remaining_time returns the time left until
it (overriding the tiered cooldown), and in particular it does so after
update_rate_limit records a failure with a nonzero external retry-after;
is_rate_limited, by contrast, ignores the stored deadline entirely and
reports the address rate-limited only within the tiered cooldown
window. -/
theorem claim4_retry_after_override :
    (∀ (m : RateMap) (address : String) (now : ℚ) (entry : RateEntry),
      m address = some entry → now < entry.last_faucet_limit →
      App.get_remaining_time m address now = ⌊entry.last_faucet_limit - now⌋) ∧
    (∀ (m : RateMap) (address : String) (t r now : ℚ), r ≠ 0 → now < t + r →
      App.get_remaining_time (App.update_rate_limit m address false (some r) t) address now =
        ⌊t + r - now⌋) ∧
    (∀ (m : RateMap) (address a : String) (q : ℚ) (now : ℚ),
      App.is_rate_limited (setFaucetLimit m address q) a now =
        App.is_rate_limited m a now) := by
  refine ⟨?_, ?_, ?_⟩
  · intro m address now entry hm hlt
    unfold App.get_remaining_time
    rw [hm]
    simp only [gt_iff_lt, if_pos hlt]
  · intro m address t r now hr hlt
    have hm : App.update_rate_limit m address false (some r) t address =
        some { last_request := t
               , last_success := match m address with
                   | some entry => entry.last_success
                   | none => 0
               , consecutive_failures := (match m address with
                   | some entry => entry.consecutive_failures
                   | none => 0) + 1
               , total_requests := (match m address with
                   | some entry => entry.total_requests
                   | none => 0) + 1
               , last_faucet_limit := t + r } := by
      unfold App.update_rate_limit
      simp only [beq_self_eq_true, if_true, if_pos hr, Bool.false_eq_true, if_false]
      cases m address <;> rfl
    unfold App.get_remaining_time
    rw [hm]
    simp only [gt_iff_lt, if_pos hlt]
  · intro m address a q now
    unfold App.is_rate_limited setFaucetLimit
    by_cases h : a == address
    · rw [if_pos h]
      cases m a <;> rfl
    · rw [if_neg h]

/-- Witness for claim4_retry_after_override on the concrete map rateM1
and concrete times. -/
theorem claim4_witness :
    App.get_remaining_time rateM1 "addr" 400 = ⌊(900 : ℚ) - 400⌋ ∧
    App.get_remaining_time (App.update_rate_limit emptyRateMap "addr" false (some 900) 0)
      "addr" 500 = ⌊(0 : ℚ) + 900 - 500⌋ ∧
    App.is_rate_limited (setFaucetLimit rateM1 "addr" 0) "addr" 400 =
      App.is_rate_limited rateM1 "addr" 400 :=
  ⟨claim4_retry_after_override.1 rateM1 "addr" 400 rateEntry1
      (by simp [rateM1, emptyRateMap, App.update_rate_limit, rateEntry1])
      (by norm_num [rateEntry1]),
   claim4_retry_after_override.2.1 emptyRateMap "addr" 0 900 500 (by norm_num) (by norm_num),
   claim4_retry_after_override.2.2 rateM1 "addr" "addr" 0 400⟩

/-! ## Claim C6: the sole account cannot be deleted -/

/-- Claim C6: when exactly one account exists, the delete route rejects
the deletion: it returns a failure and leaves the stored state, the sole
account row and its active flag included, unchanged. -/
theorem claim6_delete_sole_account (db : WalletDB) (account_id : Nat) (a : AccountRow)
    (hsole : db.accounts = [a]) :
    App.delete_account db account_id = (false, db) := by
  unfold App.delete_account
  cases hfind : DatabaseManager.get_account_by_id db account_id with
  | none => simp
  | some acc =>
    have hlen : ((DatabaseManager.get_all_accounts db).length == 1) = true := by
      simp [DatabaseManager.get_all_accounts, hsole]
    simp [hlen]

/-- Witness for claim6_delete_sole_account: deleting the single account
of cdbA fails and changes nothing. -/
theorem claim6_witness : App.delete_account cdbA 1 = (false, cdbA) :=
  claim6_delete_sole_account cdbA 1
    { id := 1, nickname := "A", address := "0xa", private_key_encrypted := [0],
      scheme := "ed25519", created_at := 1, is_active := true } rfl

/-! ## Claim C7: deleting the active account re-elects an active one -/

theorem find?_id_of_nodup (l : List AccountRow)
    (hnd : (l.map (fun x => x.id)).Nodup) (a : AccountRow) (ha : a ∈ l) :
    l.find? (fun b => b.id == a.id) = some a := by
  induction l with
  | nil => cases ha
  | cons b t ih =>
    rcases List.mem_cons.mp ha with hba | hat
    · subst hba
      exact List.find?_cons_of_pos _ (beq_self_eq_true a.id)
    · rw [List.map_cons, List.nodup_cons] at hnd
      have hbne : (b.id == a.id) = false := by
        rw [beq_eq_false_iff_ne]
        intro h
        exact hnd.1 (h ▸ List.mem_map.mpr ⟨a, hat, rfl⟩)
      rw [List.find?_cons_of_neg _ (by simp [hbne])]
      exact ih hnd.2 hat

theorem find?_eq_head?_filter {α : Type} (p : α → Bool) (l : List α) :
    l.find? p = (l.filter p).head? := by
  induction l with
  | nil => rfl
  | cons b t ih =>
    by_cases h : p b
    · rw [List.find?_cons_of_pos _ h, List.filter_cons_of_pos h]
      rfl
    · rw [List.find?_cons_of_neg _ (by simpa using h),
        List.filter_cons_of_neg (by simpa using h), ih]

theorem filter_eq_singleton (l : List AccountRow) (a : AccountRow) (p : AccountRow → Bool)
    (hlen : (l.filter p).length = 1) (ha : a ∈ l) (hpa : p a = true) :
    l.filter p = [a] := by
  obtain ⟨b, hb⟩ := List.length_eq_one.mp hlen
  have hmem : a ∈ l.filter p := List.mem_filter.mpr ⟨ha, hpa⟩
  rw [hb] at hmem ⊢
  simp only [List.mem_singleton] at hmem
  rw [hmem]

theorem filter_ne_length (l : List AccountRow) (i : Nat) :
    (l.filter (fun x => x.id != i)).length + (l.map (fun x => x.id)).count i = l.length := by
  induction l with
  | nil => rfl
  | cons b t ih =>
    simp only [List.filter_cons, List.map_cons, List.count_cons, List.length_cons]
    by_cases h : b.id = i
    · rw [if_neg (by simp [bne_iff_ne, h]), if_pos (by simp [h])]
      omega
    · rw [if_pos (by simp [bne_iff_ne, h]), if_neg (by simp [h])]
      simp only [List.length_cons]
      omega

theorem mem_ids_filter_ne (l : List AccountRow) (i j : Nat) (hne : i ≠ j) :
    (i ∈ (l.filter (fun x => x.id != j)).map (fun x => x.id)) ↔
      i ∈ l.map (fun x => x.id) := by
  constructor
  · intro h
    obtain ⟨x, hx, hxi⟩ := List.mem_map.mp h
    exact List.mem_map.mpr ⟨x, (List.mem_filter.mp hx).1, hxi⟩
  · intro h
    obtain ⟨x, hx, hxi⟩ := List.mem_map.mp h
    refine List.mem_map.mpr ⟨x, List.mem_filter.mpr ⟨hx, ?_⟩, hxi⟩
    simp [bne_iff_ne, hxi, hne]

theorem not_mem_ids_filter (l : List AccountRow) (j : Nat) :
    j ∉ (l.filter (fun x => x.id != j)).map (fun x => x.id) := by
  intro h
  obtain ⟨x, hx, hxj⟩ := List.mem_map.mp h
  have hne := (List.mem_filter.mp hx).2
  rw [bne_iff_ne] at hne
  exact hne hxj

theorem switch_account_snd (db : WalletDB) (i : Nat) :
    (WalletManager.switch_account db i).2 = (DatabaseManager.set_active_account db i).2 := by
  unfold WalletManager.switch_account
  rcases h : DatabaseManager.set_active_account db i with ⟨s, d⟩
  cases s <;> simp [h]

/-- In a table with distinct ids holding the active row a and at least
one other row, the repository-level delete_account removes a, reports
success, and re-elects exactly one active row among the remaining
ones. -/
theorem delete_account_active_spec (db : WalletDB) (a : AccountRow)
    (hnd : (accountIds db).Nodup) (ha : a ∈ db.accounts) (hactive : a.is_active = true)
    (hlen : 2 ≤ db.accounts.length) :
    (DatabaseManager.delete_account db a.id).1 = true ∧
    countActive (DatabaseManager.delete_account db a.id).2 = 1 ∧
    accountIds (DatabaseManager.delete_account db a.id).2 =
      (db.accounts.filter (fun x => x.id != a.id)).map (fun x => x.id) := by
  have hfind := find?_id_of_nodup db.accounts hnd a ha
  have hcount : (db.accounts.map (fun x => x.id)).count a.id = 1 :=
    List.count_eq_one_of_mem hnd (List.mem_map.mpr ⟨a, ha, rfl⟩)
  have hlenrem :
      (db.accounts.filter (fun x => x.id != a.id)).length + 1 = db.accounts.length := by
    have h := filter_ne_length db.accounts a.id
    rw [hcount] at h
    exact h
  have hsub : ((db.accounts.filter (fun x => x.id != a.id)).map (fun x => x.id)).Nodup :=
    List.Nodup.sublist (List.Sublist.map _ (List.filter_sublist db.accounts)) hnd
  cases hrm : db.accounts.filter (fun x => x.id != a.id) with
  | nil =>
    rw [hrm] at hlenrem
    simp at hlenrem
    omega
  | cons nxt rest =>
    unfold DatabaseManager.delete_account
    rw [hfind]
    simp only [hactive, if_true, hrm, List.head?_cons]
    have hnxt : nxt.id ∈ ((nxt :: rest).map (fun x => x.id)) :=
      List.mem_map.mpr ⟨nxt, List.mem_cons_self nxt rest, rfl⟩
    have hnd2 : ((nxt :: rest).map (fun x => x.id)).Nodup := by
      rw [← hrm]; exact hsub
    refine ⟨by trivial, ?_, ?_⟩
    · rw [countActive_set_active_account]
      exact List.count_eq_one_of_mem hnd2 hnxt
    · rw [set_active_account_ids]
      rfl

/-- Claim C7: in a well-formed state (distinct ids, exactly one active
row) with at least two accounts, deleting the currently active account
through the delete route succeeds, removes that row (other rows remain),
and leaves exactly one of the remaining accounts active. -/
theorem claim7_delete_active_reelects (db : WalletDB) (a : AccountRow)
    (hnd : (accountIds db).Nodup) (hlen : 2 ≤ db.accounts.length)
    (ha : a ∈ db.accounts) (hactive : a.is_active = true)
    (hone : countActive db = 1) :
    (App.delete_account db a.id).1 = true ∧
    a.id ∉ accountIds (App.delete_account db a.id).2 ∧
    (∀ i, i ≠ a.id → (i ∈ accountIds (App.delete_account db a.id).2 ↔ i ∈ accountIds db)) ∧
    countActive (App.delete_account db a.id).2 = 1 := by
  have hfind := find?_id_of_nodup db.accounts hnd a ha
  have hbyid : DatabaseManager.get_account_by_id db a.id = some a.toPublic := by
    unfold DatabaseManager.get_account_by_id
    rw [hfind]
    rfl
  have hlen1 : ((DatabaseManager.get_all_accounts db).length == 1) = false := by
    have hh : (DatabaseManager.get_all_accounts db).length = db.accounts.length := by
      unfold DatabaseManager.get_all_accounts
      simp
    rw [hh, beq_eq_false_iff_ne]
    omega
  have hone' : (db.accounts.filter (fun x => x.is_active)).length = 1 := hone
  have hactiveacc : DatabaseManager.get_active_account db = some a.toPublic := by
    unfold DatabaseManager.get_active_account
    rw [find?_eq_head?_filter, filter_eq_singleton db.accounts a _ hone' ha hactive]
    rfl
  have hcount : (db.accounts.map (fun x => x.id)).count a.id = 1 :=
    List.count_eq_one_of_mem hnd (List.mem_map.mpr ⟨a, ha, rfl⟩)
  have hflen := filter_ne_length db.accounts a.id
  rw [hcount] at hflen
  obtain ⟨hd1, hd2, hd3⟩ := delete_account_active_spec db a hnd ha hactive hlen
  rcases hdelpair : DatabaseManager.delete_account db a.id with ⟨succ, db2⟩
  rw [hdelpair] at hd1 hd2 hd3
  simp only at hd1 hd2 hd3
  subst hd1
  have hnd2 : (accountIds db2).Nodup := by
    rw [hd3]
    exact List.Nodup.sublist (List.Sublist.map _ (List.filter_sublist db.accounts)) hnd
  have hlen2 : db2.accounts.length + 1 = db.accounts.length := by
    have : db2.accounts.length = (accountIds db2).length := by
      unfold accountIds
      rw [List.length_map]
    rw [this, hd3, List.length_map]
    exact hflen
  cases hgl : DatabaseManager.get_all_accounts db2 with
  | nil =>
    exfalso
    have : (DatabaseManager.get_all_accounts db2).length = db2.accounts.length := by
      unfold DatabaseManager.get_all_accounts
      simp
    rw [hgl] at this
    simp at this
    omega
  | cons first xs =>
    have hfirstpub : first ∈ (db2.accounts.reverse).map AccountRow.toPublic := by
      have : first ∈ DatabaseManager.get_all_accounts db2 := by
        rw [hgl]
        exact List.mem_cons_self first xs
      exact this
    obtain ⟨row, hrowrev, hrowpub⟩ := List.mem_map.mp hfirstpub
    have hrowmem : row ∈ db2.accounts := List.mem_reverse.mp hrowrev
    have hfid : first.id ∈ accountIds db2 :=
      List.mem_map.mpr ⟨row, hrowmem, by rw [← hrowpub]; rfl⟩
    have hresult : App.delete_account db a.id =
        (true, (DatabaseManager.set_active_account db2 first.id).2) := by
      unfold App.delete_account
      rw [hbyid]
      simp only [hlen1, Bool.false_eq_true, if_false, hactiveacc, hdelpair, hgl,
        List.head?_cons, AccountRow.toPublic, beq_self_eq_true, if_true]
      rw [switch_account_snd]
    rw [hresult]
    refine ⟨rfl, ?_, ?_, ?_⟩
    · simp only [set_active_account_ids, hd3]
      exact not_mem_ids_filter db.accounts a.id
    · intro i hi
      simp only [set_active_account_ids, hd3]
      exact mem_ids_filter_ne db.accounts i a.id hi
    · simp only [countActive_set_active_account]
      exact List.count_eq_one_of_mem hnd2 hfid

/-- Witness for claim7_delete_active_reelects: deleting the active
account (id 1) of the two-account repository cdbB succeeds, removes id 1,
keeps id 2, and leaves exactly one active account. -/
theorem claim7_witness :
    (App.delete_account cdbB 1).1 = true ∧
    1 ∉ accountIds (App.delete_account cdbB 1).2 ∧
    (2 ∈ accountIds (App.delete_account cdbB 1).2 ↔ 2 ∈ accountIds cdbB) ∧
    countActive (App.delete_account cdbB 1).2 = 1 :=
  ⟨(claim7_delete_active_reelects cdbB
      { id := 1, nickname := "A", address := "0xa", private_key_encrypted := [0],
        scheme := "ed25519", created_at := 1, is_active := true }
      (by decide) (by decide) (by decide) rfl (by decide)).1,
   (claim7_delete_active_reelects cdbB
      { id := 1, nickname := "A", address := "0xa", private_key_encrypted := [0],
        scheme := "ed25519", created_at := 1, is_active := true }
      (by decide) (by decide) (by decide) rfl (by decide)).2.1,
   (claim7_delete_active_reelects cdbB
      { id := 1, nickname := "A", address := "0xa", private_key_encrypted := [0],
        scheme := "ed25519", created_at := 1, is_active := true }
      (by decide) (by decide) (by decide) rfl (by decide)).2.2.1 2 (by decide),
   (claim7_delete_active_reelects cdbB
      { id := 1, nickname := "A", address := "0xa", private_key_encrypted := [0],
        scheme := "ed25519", created_at := 1, is_active := true }
      (by decide) (by decide) (by decide) rfl (by decide)).2.2.2⟩

end SuiWallet
